import Mathlib

/- Verification development for the bs-solctra field-line tracing program
   (source files src/simulation.rs and src/main.rs).  The scalar type of the
   program (f64) is modelled by an arbitrary linear ordered field `K` together
   with an explicit square-root function `sqrt : K → K`, so every definition
   is executable (concretely over ℚ) and the algebraic structure of the code
   is captured exactly; floating-point rounding is outside the model. -/

namespace Solctra

variable {K : Type} {α : Type}

/-- Modelled from the spec: the 3D vector primitive of point.rs (not under
src/); double-precision x, y, z coordinates (spec section 3, Vector3). -/
@[ext]
structure Point (K : Type) where
  x : K
  y : K
  z : K
  deriving DecidableEq

/-- Modelled from the spec: Point::get_norm of point.rs, the Euclidean norm
sqrt(x² + y² + z²) (spec section 3: norm is a pure function).  The square
root is the explicit parameter `sqrt`. -/
def Point.get_norm [LinearOrderedField K] (sqrt : K → K) (p : Point K) : K :=
  sqrt (p.x ^ 2 + p.y ^ 2 + p.z ^ 2)

/-- Modelled from the spec: Point::get_displacement of point.rs; spec
section 3 fixes the orientation (`displacement = n1 - n0` is computed as
`w[1].get_displacement(&w[0])` in compute_displacements, and section 4.2 has
`rmi = position - n0` computed as `particle.get_displacement(n0)`), so
`a.get_displacement b = a - b` componentwise. -/
def Point.get_displacement [LinearOrderedField K] (a b : Point K) : Point K :=
  ⟨a.x - b.x, a.y - b.y, a.z - b.z⟩

/-- Modelled from the spec: Point::get_distance of point.rs, the 3D distance,
i.e. the norm of the displacement. -/
def Point.get_distance [LinearOrderedField K] (sqrt : K → K) (a b : Point K) : K :=
  (a.get_displacement b).get_norm sqrt

/-- Modelled from the spec: Point::get_unit_vector of point.rs (glossary:
unit vector along a displacement), the vector divided by its norm. -/
def Point.get_unit_vector [LinearOrderedField K] (sqrt : K → K) (p : Point K) : Point K :=
  let n := p.get_norm sqrt
  ⟨p.x / n, p.y / n, p.z / n⟩

/-- Modelled from the spec: the fixed device constants of constants.rs (not
under src/): permeability MIU, current I, PI and the device radii (spec
sections 4.2, 4.3 and glossary).  They are abstract field elements here. -/
structure Constants (K : Type) where
  MIU : K
  I : K
  PI : K
  MAJOR_RADIUS : K
  MINOR_RADIUS : K
  deriving DecidableEq

/-- Rust slice::windows(2): the list of adjacent pairs of a list. -/
def windows2 (l : List α) : List (α × α) := l.zip l.tail

variable [LinearOrderedField K]

/-- simulation.rs lines 26-55: the body of the inner loop of
compute_magnetic_field.  `pe` is the zipped loop item
`(points, (e, displacement))`, `b` the running field total. -/
def segment_step (C : Constants K) (sqrt : K → K) (particle : Point K)
    (b : Point K) (pe : (Point K × Point K) × (Point K × Point K)) : Point K :=
  let multiplier := C.MIU * C.I / (4 * C.PI)
  let points := pe.1
  let e := pe.2.1
  let displacement := pe.2.2
  let rmi_a := particle.get_displacement points.1
  let rmf_a := particle.get_displacement points.2
  let u : Point K := ⟨multiplier * e.x, multiplier * e.y, multiplier * e.z⟩
  let displacement_norm := displacement.get_norm sqrt
  let rmi_a_norm := rmi_a.get_norm sqrt
  let rmf_a_norm := rmf_a.get_norm sqrt
  let c := 2 * displacement_norm * (rmi_a_norm + rmf_a_norm) / (rmi_a_norm * rmf_a_norm) *
    (1 / ((rmi_a_norm + rmf_a_norm) ^ 2 - displacement_norm ^ 2))
  let v : Point K := ⟨rmi_a.x * c, rmi_a.y * c, rmi_a.z * c⟩
  ⟨b.x + (u.y * v.z - u.z * v.y), b.y - (u.x * v.z - u.z * v.x),
    b.z + (u.x * v.y - u.y * v.x)⟩

/-- simulation.rs lines 10-58, compute_magnetic_field: the Biot-Savart total
accumulated by the two nested zipped loops of the source, starting from the
zero vector.  The outer loop item `ced` is `((coil, e_roof_slice),
displacement_slice)`. -/
def compute_magnetic_field (C : Constants K) (sqrt : K → K) (particle : Point K)
    (coils displacements e_roof : List (List (Point K))) : Point K :=
  ((coils.zip e_roof).zip displacements).foldl
    (fun b ced =>
      ((windows2 ced.1.1).zip (ced.1.2.zip ced.2)).foldl (segment_step C sqrt particle) b)
    ⟨0, 0, 0⟩

/-- simulation.rs lines 67-108 (the RK4 update of simulate_step, before the
containment check), with the four identical calls
`compute_magnetic_field(·, coils, displacements, e_roof)` abstracted as `F`;
`F` is instantiated with exactly that function in `simulate_step_pre`. -/
def rk4_core (F : Point K → Point K) (sqrt : K → K) (step_size : K)
    (particle : Point K) : Point K :=
  let k1b := F particle
  let k1norm := k1b.get_norm sqrt
  let k1 : Point K := ⟨k1b.x / k1norm * step_size, k1b.y / k1norm * step_size,
    k1b.z / k1norm * step_size⟩
  let p1 : Point K := ⟨k1.x / 2 + particle.x, k1.y / 2 + particle.y, k1.z / 2 + particle.z⟩
  let k2b := F p1
  let k2norm := k2b.get_norm sqrt
  let k2 : Point K := ⟨k2b.x / k2norm * step_size, k2b.y / k2norm * step_size,
    k2b.z / k2norm * step_size⟩
  let p2 : Point K := ⟨k2.x / 2 + particle.x, k2.y / 2 + particle.y, k2.z / 2 + particle.z⟩
  let k3b := F p2
  let k3norm := k3b.get_norm sqrt
  let k3 : Point K := ⟨k3b.x / k3norm * step_size, k3b.y / k3norm * step_size,
    k3b.z / k3norm * step_size⟩
  let p3 : Point K := ⟨k3.x + particle.x, k3.y + particle.y, k3.z + particle.z⟩
  let k4b := F p3
  let k4norm := k4b.get_norm sqrt
  let k4 : Point K := ⟨k4b.x / k4norm * step_size, k4b.y / k4norm * step_size,
    k4b.z / k4norm * step_size⟩
  ⟨particle.x + (k1.x + 2 * k2.x + 2 * k3.x + k4.x) / 6,
    particle.y + (k1.y + 2 * k2.y + 2 * k3.y + k4.y) / 6,
    particle.z + (k1.z + 2 * k2.z + 2 * k3.z + k4.z) / 6⟩

/-- simulation.rs lines 110-126: the containment/divergence policy applied by
simulate_step to the RK4 result. -/
def containment (C : Constants K) (sqrt : K → K) (result : Point K) : Point K :=
  let p : Point K := ⟨result.x, result.y, 0⟩
  let origin : Point K := ⟨C.MAJOR_RADIUS * p.x / p.get_norm sqrt,
    C.MAJOR_RADIUS * p.y / p.get_norm sqrt, 0⟩
  let distance := result.get_distance sqrt origin
  if distance > C.MINOR_RADIUS then ⟨C.MINOR_RADIUS, C.MINOR_RADIUS, C.MINOR_RADIUS⟩
  else result

/-- The pre-containment RK4 result of simulate_step (simulation.rs lines
67-108) with the program's field evaluator instantiated for `F`. -/
def simulate_step_pre (C : Constants K) (sqrt : K → K)
    (coils displacements e_roof : List (List (Point K))) (step_size : K)
    (particle : Point K) : Point K :=
  rk4_core (fun q => compute_magnetic_field C sqrt q coils displacements e_roof)
    sqrt step_size particle

/-- simulation.rs lines 60-129, simulate_step: the RK4 update followed by the
containment/divergence policy. -/
def simulate_step (C : Constants K) (sqrt : K → K)
    (coils displacements e_roof : List (List (Point K))) (step_size : K)
    (particle : Point K) : Point K :=
  containment C sqrt (simulate_step_pre C sqrt coils displacements e_roof step_size particle)

/-- simulation.rs lines 143-147: the sentinel position marking a divergent
particle (the minor radius in all three coordinates). -/
def divergent_particle (C : Constants K) : Point K :=
  ⟨C.MINOR_RADIUS, C.MINOR_RADIUS, C.MINOR_RADIUS⟩

/-- simulation.rs lines 156-160: one iteration of the step loop of
simulate_particles; every particle different from the sentinel is advanced by
simulate_step, sentinel particles are left untouched.  The rayon
par_iter_mut is a parallel map over independent slots, modelled as List.map. -/
def step_particles (C : Constants K) (sqrt : K → K)
    (coils displacements e_roof : List (List (Point K))) (step_size : K)
    (particles : List (Point K)) : List (Point K) :=
  particles.map fun particle =>
    if particle ≠ divergent_particle C then
      simulate_step C sqrt coils displacements e_roof step_size particle
    else particle

/-- simulation.rs lines 155-167: the step loop of simulate_particles, started
at index `step` with `n` iterations left; yields the checkpoint records
written by write_points_to_file (the file output of point.rs, not under src/,
is modelled from the spec of section 6 as the (step index, positions) records
in the order they are written). -/
def sim_loop (C : Constants K) (sqrt : K → K)
    (coils displacements e_roof : List (List (Point K))) (step_size : K)
    (write_frequency : Nat) : Nat → Nat → List (Point K) → List (Nat × List (Point K))
  | _, 0, _ => []
  | step, n + 1, particles =>
    let particles2 := step_particles C sqrt coils displacements e_roof step_size particles
    (if step % write_frequency = 0 then [(step, particles2)] else []) ++
      sim_loop C sqrt coils displacements e_roof step_size write_frequency (step + 1) n
        particles2

/-- simulation.rs lines 131-168, simulate_particles: a checkpoint of the
initial positions is written for step 0, then the loop runs for step in
1..total_steps+1 writing a checkpoint after every step whose index is a
multiple of write_frequency.  The result is the list of all checkpoint
records written. -/
def simulate_particles (C : Constants K) (sqrt : K → K)
    (coils displacements e_roof : List (List (Point K))) (step_size : K)
    (total_steps write_frequency : Nat) (particles : List (Point K)) :
    List (Nat × List (Point K)) :=
  (0, particles) ::
    sim_loop C sqrt coils displacements e_roof step_size write_frequency 1 total_steps
      particles

/-- Modelled from the spec: one file of the coil directory (spec section 6);
its read result (point.rs read_from_file, not under src/) is `none` when the
file is unreadable or malformed and otherwise the parsed node list. -/
structure CoilFile (K : Type) where
  name : String
  content : Option (List (Point K))

/-- The file-name ordering used by `coil_files.sort()` on the directory
listing (lexicographic on names). -/
def file_le (a b : CoilFile K) : Prop := a.name ≤ b.name

instance : DecidableRel (@file_le K) :=
  fun a b => inferInstanceAs (Decidable (a.name ≤ b.name))

instance : IsTotal (CoilFile K) file_le := ⟨fun a b => le_total a.name b.name⟩

instance : IsTrans (CoilFile K) file_le := ⟨fun _ _ _ hab hbc => le_trans hab hbc⟩

/-- simulation.rs line 176, `coil_files.sort()`: sort the directory entries
lexicographically by name. -/
def sort_files (files : List (CoilFile K)) : List (CoilFile K) :=
  List.insertionSort file_le files

/-- simulation.rs lines 180-183: read every file in order, propagating the
first read error (the `?` operator), collecting the coil node lists. -/
def read_all : List (CoilFile K) → Option (List (List (Point K)))
  | [] => some []
  | f :: rest =>
    match f.content with
    | none => none
    | some coil =>
      match read_all rest with
      | none => none
      | some coils => some (coil :: coils)

/-- simulation.rs lines 170-186, read_coil_data_directory: sort the directory
entries by name, then read each file in order.  (When the directory itself is
unreadable the source panics at lines 171-175 via expect/unwrap instead of
returning; that abort path is outside this value-level model.) -/
def read_coil_data_directory (files : List (CoilFile K)) :
    Option (List (List (Point K))) :=
  read_all (sort_files files)

/-- simulation.rs lines 188-192, compute_displacements. -/
def compute_displacements (coil : List (Point K)) : List (Point K) :=
  (windows2 coil).map fun w => w.2.get_displacement w.1

/-- simulation.rs lines 194-196, compute_all_displacements. -/
def compute_all_displacements (coils : List (List (Point K))) : List (List (Point K)) :=
  coils.map compute_displacements

/-- simulation.rs lines 198-203, compute_e_roof. -/
def compute_e_roof (sqrt : K → K) (coil_displacements : List (Point K)) : List (Point K) :=
  coil_displacements.map fun disp => disp.get_unit_vector sqrt

/-- simulation.rs lines 205-210, compute_all_e_roof. -/
def compute_all_e_roof (sqrt : K → K) (all_displacements : List (List (Point K))) :
    List (List (Point K)) :=
  all_displacements.map fun disps => compute_e_roof sqrt disps

/-- main.rs lines 38-61: rank `rank` of `world_size` receives, through the
scatter from rank 0 (the MPI scatter semantics are modelled from the spec,
section 3 "Partition": an even split into contiguous blocks), the block of
`particles_per_rank = particles.length / world_size` seed particles starting
at `rank * particles_per_rank`. -/
def local_particles (particles : List α) (world_size rank : Nat) : List α :=
  (particles.drop (rank * (particles.length / world_size))).take
    (particles.length / world_size)

/-- Componentwise vector sum, for stating the spec formulas. -/
def vadd (a b : Point K) : Point K := ⟨a.x + b.x, a.y + b.y, a.z + b.z⟩

/-- Vector times scalar (the spec's `v · c`). -/
def vmul (v : Point K) (c : K) : Point K := ⟨v.x * c, v.y * c, v.z * c⟩

/-- Scalar times vector (the spec's `2 · k`). -/
def cmul (c : K) (v : Point K) : Point K := ⟨c * v.x, c * v.y, c * v.z⟩

/-- Vector divided by scalar (the spec's `k/2`, `k/6`). -/
def vdiv (v : Point K) (c : K) : Point K := ⟨v.x / c, v.y / c, v.z / c⟩

/-- The spec's `normalize`: the unit vector in the direction of `v`. -/
def normalize (sqrt : K → K) (v : Point K) : Point K := v.get_unit_vector sqrt

/-- Spec section 4.3 (`advance`), over an abstract stage field evaluator `F`:
the 4-stage RK4 scheme with each stage normalized and scaled by the step. -/
def advance_core_spec (F : Point K → Point K) (sqrt : K → K) (h : K)
    (p : Point K) : Point K :=
  let k1 := vmul (normalize sqrt (F p)) h
  let p1 := vadd p (vdiv k1 2)
  let k2 := vmul (normalize sqrt (F p1)) h
  let p2 := vadd p (vdiv k2 2)
  let k3 := vmul (normalize sqrt (F p2)) h
  let p3 := vadd p k3
  let k4 := vmul (normalize sqrt (F p3)) h
  vadd p (vdiv (vadd (vadd (vadd k1 (cmul 2 k2)) (cmul 2 k3)) k4) 6)

/-- Spec section 4.3 with the program's field evaluator as the stage field. -/
def advance_from_spec (C : Constants K) (sqrt : K → K)
    (coils displacements e_roof : List (List (Point K))) (h : K) (p : Point K) : Point K :=
  advance_core_spec (fun q => compute_magnetic_field C sqrt q coils displacements e_roof)
    sqrt h p

/-- Spec section 4.2: the closed-form field contribution of one segment with
endpoints (n0, n1); the segment displacement and unit vector are derived from
the endpoints as in spec section 3, and the Biot-Savart factor `c` is in the
spec's combined-fraction form. -/
def biot_savart_term (C : Constants K) (sqrt : K → K) (position n0 n1 : Point K) :
    Point K :=
  let d := n1.get_displacement n0
  let e := d.get_unit_vector sqrt
  let rmi := position.get_displacement n0
  let rmf := position.get_displacement n1
  let u : Point K := ⟨C.MIU * C.I / (4 * C.PI) * e.x, C.MIU * C.I / (4 * C.PI) * e.y,
    C.MIU * C.I / (4 * C.PI) * e.z⟩
  let c := 2 * d.get_norm sqrt * (rmi.get_norm sqrt + rmf.get_norm sqrt) /
    (rmi.get_norm sqrt * rmf.get_norm sqrt *
      ((rmi.get_norm sqrt + rmf.get_norm sqrt) ^ 2 - d.get_norm sqrt ^ 2))
  let v : Point K := ⟨rmi.x * c, rmi.y * c, rmi.z * c⟩
  ⟨u.y * v.z - u.z * v.y, -(u.x * v.z - u.z * v.x), u.x * v.y - u.y * v.x⟩

/-- Spec section 4.2: the per-coil field is the sum of the per-segment
contributions over the coil's adjacent node pairs. -/
def coil_field_from_spec (C : Constants K) (sqrt : K → K) (position : Point K)
    (coil : List (Point K)) : Point K :=
  ((windows2 coil).map fun w => biot_savart_term C sqrt position w.1 w.2).foldr
    vadd ⟨0, 0, 0⟩

/-- Spec section 4.2: the returned field is the sum over all segments of all
coils of the per-segment contributions. -/
def field_from_spec (C : Constants K) (sqrt : K → K) (position : Point K)
    (coils : List (List (Point K))) : Point K :=
  (coils.map fun coil => coil_field_from_spec C sqrt position coil).foldr vadd ⟨0, 0, 0⟩

/-- Spec section 4.3 containment: the nearest point, on the major-radius
circle in the plane z = 0, to the projection of `r` onto that plane. -/
def nearest_circle_point (C : Constants K) (sqrt : K → K) (r : Point K) : Point K :=
  let p : Point K := ⟨r.x, r.y, 0⟩
  ⟨C.MAJOR_RADIUS * p.x / p.get_norm sqrt, C.MAJOR_RADIUS * p.y / p.get_norm sqrt, 0⟩

/-- Spec section 4.3 containment: the 3D distance from the unprojected RK4
result to its nearest major-radius-circle point. -/
def dist_to_circle (C : Constants K) (sqrt : K → K) (r : Point K) : K :=
  r.get_distance sqrt (nearest_circle_point C sqrt r)

/-- Concrete device constants over ℚ for witnesses (the numeric values of
constants.rs are irrelevant to the structural claims): MIU = 1, I = 1,
PI = 1, MAJOR_RADIUS = 5, MINOR_RADIUS = 1. -/
def constQ : Constants ℚ := ⟨1, 1, 1, 5, 1⟩

/-- Constants with MAJOR_RADIUS 2 and MINOR_RADIUS 1, for the boundary
containment witness. -/
def constB : Constants ℚ := ⟨1, 1, 1, 2, 1⟩

/-- A dummy square root, for witnesses of claims that do not depend on the
square-root values. -/
def sqrt0 : ℚ → ℚ := fun _ => 0

/-- A square root exact at every value reached by the zero-field run of the
C2 exhibit: sqrt 0 = 0 and sqrt 25 = 5. -/
def sqrtZF : ℚ → ℚ := fun q => if q = 25 then 5 else 0

/-- A square root exact at every value reached by the boundary containment
witness: sqrt 4 = 2, sqrt 1 = 1, sqrt 0 = 0. -/
def sqrtB : ℚ → ℚ := fun q => if q = 4 then 2 else if q = 1 then 1 else 0

/-- A concrete 3-node coil over ℚ for witnesses. -/
def coilW : List (Point ℚ) := [⟨0, 0, 0⟩, ⟨1, 0, 0⟩, ⟨1, 2, 0⟩]

/-- Three concrete distinct seed particles over ℚ. -/
def partsW : List (Point ℚ) := [⟨1, 1, 1⟩, ⟨2, 2, 2⟩, ⟨3, 3, 3⟩]

lemma vadd_assoc (a b c : Point K) : vadd (vadd a b) c = vadd a (vadd b c) := by
  simp only [vadd, Point.mk.injEq]
  exact ⟨by ring, by ring, by ring⟩

lemma vadd_zero_point (b : Point K) : vadd b ⟨0, 0, 0⟩ = b := by
  simp only [vadd]
  ext <;> simp

lemma zero_point_vadd (b : Point K) : vadd ⟨0, 0, 0⟩ b = b := by
  simp only [vadd]
  ext <;> simp

lemma mk_addcomm (A B C : K) (q : Point K) :
    (⟨A + q.x, B + q.y, C + q.z⟩ : Point K) = ⟨q.x + A, q.y + B, q.z + C⟩ := by
  simp only [Point.mk.injEq]
  exact ⟨by ring, by ring, by ring⟩

lemma rk4_core_eq_advance (F : Point K → Point K) (s : K → K) (h : K) (p : Point K) :
    rk4_core F s h p = advance_core_spec F s h p := by
  dsimp only [rk4_core, advance_core_spec, normalize, Point.get_unit_vector,
    Point.get_norm, vmul, vadd, vdiv, cmul]
  simp only [mk_addcomm]

/-- Claim C1: for every particle position, geometry and step size, the
pre-containment result of simulate_step is exactly the 4-stage RK4 scheme of
the spec: k1 = normalize(field(p))·h, p1 = p + k1/2; k2 = normalize(field(p1))·h,
p2 = p + k2/2; k3 = normalize(field(p2))·h, p3 = p + k3;
k4 = normalize(field(p3))·h; result = p + (k1 + 2·k2 + 2·k3 + k4)/6. -/
theorem simulate_step_pre_is_rk4_spec (C : Constants K) (sqrt : K → K)
    (coils displacements e_roof : List (List (Point K))) (h : K) (p : Point K) :
    simulate_step_pre C sqrt coils displacements e_roof h p =
      advance_from_spec C sqrt coils displacements e_roof h p :=
  rk4_core_eq_advance _ _ _ _

lemma c_forms_eq (dn ri rf : K) :
    2 * dn * (ri + rf) / (ri * rf) * (1 / ((ri + rf) ^ 2 - dn ^ 2)) =
      2 * dn * (ri + rf) / (ri * rf * ((ri + rf) ^ 2 - dn ^ 2)) := by
  rw [div_mul_div_comm, mul_one]

lemma segment_step_eq (C : Constants K) (s : K → K) (particle n0 n1 b : Point K) :
    segment_step C s particle b
        ((n0, n1), ((n1.get_displacement n0).get_unit_vector s, n1.get_displacement n0)) =
      vadd b (biot_savart_term C s particle n0 n1) := by
  simp only [segment_step, biot_savart_term, c_forms_eq, vadd, Point.mk.injEq]
  exact ⟨by ring_nf, by ring, by ring_nf⟩

lemma windows2_cons2 (p q : α) (l : List α) :
    windows2 (p :: q :: l) = (p, q) :: windows2 (q :: l) := rfl

lemma compute_displacements_cons2 (p q : Point K) (l : List (Point K)) :
    compute_displacements (p :: q :: l) =
      q.get_displacement p :: compute_displacements (q :: l) := rfl

lemma compute_e_roof_cons (s : K → K) (d : Point K) (l : List (Point K)) :
    compute_e_roof s (d :: l) = d.get_unit_vector s :: compute_e_roof s l := rfl

lemma inner_fold_eq (C : Constants K) (s : K → K) (particle : Point K) :
    ∀ (coil : List (Point K)) (b : Point K),
      ((windows2 coil).zip
          ((compute_e_roof s (compute_displacements coil)).zip
            (compute_displacements coil))).foldl (segment_step C s particle) b =
        vadd b (coil_field_from_spec C s particle coil) := by
  intro coil
  induction coil with
  | nil =>
    intro b
    simp [windows2, coil_field_from_spec, vadd_zero_point]
  | cons p rest ih =>
    intro b
    cases rest with
    | nil =>
      simp [windows2, compute_displacements, coil_field_from_spec, vadd_zero_point]
    | cons q rest2 =>
      rw [windows2_cons2, compute_displacements_cons2, compute_e_roof_cons,
        List.zip_cons_cons, List.zip_cons_cons, List.foldl_cons, ih, segment_step_eq,
        vadd_assoc]
      have hs : coil_field_from_spec C s particle (p :: q :: rest2) =
          vadd (biot_savart_term C s particle p q)
            (coil_field_from_spec C s particle (q :: rest2)) := by
        simp [coil_field_from_spec, windows2_cons2]
      rw [hs]

lemma outer_fold_eq (C : Constants K) (s : K → K) (particle : Point K) :
    ∀ (coils : List (List (Point K))) (b : Point K),
      (((coils.zip (compute_all_e_roof s (compute_all_displacements coils))).zip
          (compute_all_displacements coils)).foldl
        (fun b ced =>
          ((windows2 ced.1.1).zip (ced.1.2.zip ced.2)).foldl (segment_step C s particle) b)
        b) =
        vadd b (field_from_spec C s particle coils) := by
  intro coils
  induction coils with
  | nil =>
    intro b
    simp [compute_all_displacements, compute_all_e_roof, field_from_spec, vadd_zero_point]
  | cons coil rest ih =>
    intro b
    simp only [compute_all_displacements, compute_all_e_roof, List.map_cons,
      List.map_map, List.zip_cons_cons, List.foldl_cons]
    have hstep :
        ((windows2 coil).zip
            ((compute_e_roof s (compute_displacements coil)).zip
              (compute_displacements coil))).foldl (segment_step C s particle) b =
          vadd b (coil_field_from_spec C s particle coil) := inner_fold_eq C s particle coil b
    rw [hstep]
    have hrest := ih (vadd b (coil_field_from_spec C s particle coil))
    simp only [compute_all_displacements, compute_all_e_roof, List.map_map] at hrest
    rw [hrest, vadd_assoc]
    have hfs : field_from_spec C s particle (coil :: rest) =
        vadd (coil_field_from_spec C s particle coil) (field_from_spec C s particle rest) := by
      simp [field_from_spec]
    rw [hfs]

/-- Claim C3: when the displacement and unit-vector arrays are the ones
derived from the coils, compute_magnetic_field returns exactly the sum, over
all segments of all coils, of the spec's closed-form per-segment Biot-Savart
contribution u × v (with c in combined-fraction form and the y-component sign
flipped), accumulated from the zero vector. -/
theorem compute_magnetic_field_is_biot_savart_sum (C : Constants K) (sqrt : K → K)
    (particle : Point K) (coils ds es : List (List (Point K)))
    (hd : ds = compute_all_displacements coils)
    (he : es = compute_all_e_roof sqrt ds) :
    compute_magnetic_field C sqrt particle coils ds es =
      field_from_spec C sqrt particle coils := by
  subst hd
  subst he
  rw [compute_magnetic_field, outer_fold_eq C sqrt particle coils ⟨0, 0, 0⟩,
    zero_point_vadd]

/-- Claim C3 witness: the theorem applied to the concrete one-coil geometry
with its derived displacement and unit-vector arrays. -/
theorem compute_magnetic_field_is_biot_savart_sum_witness :
    compute_magnetic_field constQ sqrt0 ⟨0, 0, 0⟩ [coilW]
        (compute_all_displacements [coilW])
        (compute_all_e_roof sqrt0 (compute_all_displacements [coilW])) =
      field_from_spec constQ sqrt0 ⟨0, 0, 0⟩ [coilW] :=
  compute_magnetic_field_is_biot_savart_sum constQ sqrt0 ⟨0, 0, 0⟩ [coilW] _ _ rfl rfl

/-- Claim C4: the containment policy overwrites the RK4 result with the
divergent sentinel exactly when the 3D distance from the result to its
nearest major-radius-circle point strictly exceeds the minor radius; at
distance exactly equal to the minor radius the result is kept unchanged. -/
theorem containment_marks_iff_beyond_minor (C : Constants K) (sqrt : K → K)
    (r : Point K) :
    containment C sqrt r =
      (if dist_to_circle C sqrt r > C.MINOR_RADIUS then divergent_particle C else r) ∧
    (dist_to_circle C sqrt r = C.MINOR_RADIUS → containment C sqrt r = r) := by
  have h1 : containment C sqrt r =
      if dist_to_circle C sqrt r > C.MINOR_RADIUS then divergent_particle C else r := rfl
  refine ⟨h1, fun hb => ?_⟩
  rw [h1, hb]
  exact if_neg (lt_irrefl _)

/-- Claim C4 witness: the point (2,0,1) with MAJOR_RADIUS 2 and MINOR_RADIUS 1
projects to the circle point (2,0,0) at distance exactly 1 = MINOR_RADIUS and
is not marked divergent. -/
theorem containment_marks_iff_beyond_minor_witness :
    dist_to_circle constB sqrtB ⟨2, 0, 1⟩ = constB.MINOR_RADIUS ∧
    containment constB sqrtB ⟨2, 0, 1⟩ = ⟨2, 0, 1⟩ := by
  have hd : dist_to_circle constB sqrtB ⟨2, 0, 1⟩ = constB.MINOR_RADIUS := by
    norm_num [dist_to_circle, nearest_circle_point, Point.get_distance, Point.get_norm,
      Point.get_displacement, constB, sqrtB]
  exact ⟨hd, (containment_marks_iff_beyond_minor constB sqrtB ⟨2, 0, 1⟩).2 hd⟩

/-- Claim C2 exhibit (the code lacks the guard the claim describes): with an
empty coil set the field at (5,0,0) is exactly the zero vector, whose norm is
zero, yet simulate_step divides by that norm with no degeneracy check: in
this total-division model the particle comes back unchanged and in particular
is never overwritten with the divergent sentinel.  (In f64 the divisions
0.0/0.0 produce NaN components instead, which are stored and propagated,
since NaN > MINOR_RADIUS is false.) -/
theorem simulate_step_zero_field_unguarded :
    compute_magnetic_field constQ sqrtZF ⟨5, 0, 0⟩ [] [] [] = ⟨0, 0, 0⟩ ∧
    Point.get_norm sqrtZF (⟨0, 0, 0⟩ : Point ℚ) = 0 ∧
    simulate_step constQ sqrtZF [] [] [] (1 / 100) ⟨5, 0, 0⟩ = ⟨5, 0, 0⟩ ∧
    simulate_step constQ sqrtZF [] [] [] (1 / 100) ⟨5, 0, 0⟩ ≠ divergent_particle constQ := by
  have hf : compute_magnetic_field constQ sqrtZF ⟨5, 0, 0⟩ [] [] [] = ⟨0, 0, 0⟩ := rfl
  have hn : Point.get_norm sqrtZF (⟨0, 0, 0⟩ : Point ℚ) = 0 := by
    norm_num [Point.get_norm, sqrtZF]
  have hs : simulate_step constQ sqrtZF [] [] [] (1 / 100) ⟨5, 0, 0⟩ = ⟨5, 0, 0⟩ := by
    norm_num [simulate_step, simulate_step_pre, rk4_core, containment, compute_magnetic_field,
      Point.get_norm, Point.get_distance, Point.get_displacement, divergent_particle,
      constQ, sqrtZF]
  refine ⟨hf, hn, hs, ?_⟩
  rw [hs]
  norm_num [divergent_particle, constQ]

lemma windows2_length (l : List α) : (windows2 l).length = l.length - 1 := by
  simp only [windows2, List.length_zip, List.length_tail]
  exact Nat.min_eq_right (Nat.sub_le _ _)

lemma windows2_getElem (l : List α) :
    ∀ (i : ℕ) (a b : α), l[i]? = some a → l[i + 1]? = some b →
      (windows2 l)[i]? = some (a, b) := by
  induction l with
  | nil => intro i a b h1 _; simp at h1
  | cons x xs ih =>
    intro i a b h1 h2
    cases i with
    | zero =>
      simp only [List.getElem?_cons_zero, Option.some.injEq] at h1
      cases xs with
      | nil => simp at h2
      | cons y ys =>
        simp only [List.getElem?_cons_succ, List.getElem?_cons_zero,
          Option.some.injEq] at h2
        rw [windows2_cons2]
        simp [h1, h2]
    | succ i =>
      simp only [List.getElem?_cons_succ] at h1 h2
      cases xs with
      | nil => simp at h1
      | cons y ys =>
        rw [windows2_cons2]
        simp only [List.getElem?_cons_succ]
        exact ih i a b h1 h2

/-- Claim C8: for every coil with N ≥ 1 nodes the derived displacement and
unit-vector arrays both have exactly N - 1 entries, and entry i is computed
from the adjacent node pair (i, i+1): displacement[i] = node(i+1) - node(i)
and e_roof[i] = unit_vector(displacement[i]). -/
theorem segment_geometry_alignment (sqrt : K → K) (coil : List (Point K))
    (hN : 1 ≤ coil.length) :
    (compute_displacements coil).length = coil.length - 1 ∧
    (compute_e_roof sqrt (compute_displacements coil)).length = coil.length - 1 ∧
    (∀ i a b, coil[i]? = some a → coil[i + 1]? = some b →
      (compute_displacements coil)[i]? = some (b.get_displacement a) ∧
      (compute_e_roof sqrt (compute_displacements coil))[i]? =
        some ((b.get_displacement a).get_unit_vector sqrt)) := by
  refine ⟨?_, ?_, ?_⟩
  · simp [compute_displacements, windows2_length]
  · simp [compute_e_roof, compute_displacements, windows2_length]
  · intro i a b h1 h2
    have hw := windows2_getElem coil i a b h1 h2
    constructor
    · simp [compute_displacements, List.getElem?_map, hw]
    · simp [compute_e_roof, compute_displacements, List.getElem?_map, hw]

/-- Claim C8 witness: the theorem applied to the concrete 3-node coil, with
its first derived entry spelled out. -/
theorem segment_geometry_alignment_witness :
    (compute_displacements coilW).length = coilW.length - 1 ∧
    (compute_displacements coilW)[0]? =
      some (Point.get_displacement ⟨1, 0, 0⟩ ⟨0, 0, 0⟩) := by
  refine ⟨(segment_geometry_alignment sqrt0 coilW (by norm_num [coilW])).1, ?_⟩
  exact ((segment_geometry_alignment sqrt0 coilW (by norm_num [coilW])).2.2 0
    ⟨0, 0, 0⟩ ⟨1, 0, 0⟩ rfl rfl).1

lemma step_particles_length (C : Constants K) (sqrt : K → K)
    (coils ds es : List (List (Point K))) (h : K) (ps : List (Point K)) :
    (step_particles C sqrt coils ds es h ps).length = ps.length := by
  simp [step_particles]

lemma step_particles_sentinel (C : Constants K) (sqrt : K → K)
    (coils ds es : List (List (Point K))) (h : K) (ps : List (Point K)) (j : ℕ)
    (hj : ps[j]? = some (divergent_particle C)) :
    (step_particles C sqrt coils ds es h ps)[j]? = some (divergent_particle C) := by
  simp [step_particles, List.getElem?_map, hj]

lemma iterate_sentinel (C : Constants K) (sqrt : K → K)
    (coils ds es : List (List (Point K))) (h : K) (ps : List (Point K)) (j : ℕ)
    (hj : ps[j]? = some (divergent_particle C)) :
    ∀ k, ((step_particles C sqrt coils ds es h)^[k] ps)[j]? =
      some (divergent_particle C) := by
  intro k
  induction k with
  | zero => exact hj
  | succ k ih =>
    rw [Function.iterate_succ_apply']
    exact step_particles_sentinel C sqrt coils ds es h _ j ih

lemma iterate_length (C : Constants K) (sqrt : K → K)
    (coils ds es : List (List (Point K))) (h : K) (ps : List (Point K)) :
    ∀ k, ((step_particles C sqrt coils ds es h)^[k] ps).length = ps.length := by
  intro k
  induction k with
  | zero => rfl
  | succ k ih =>
    rw [Function.iterate_succ_apply', step_particles_length]
    exact ih

lemma iterate_sentinel_mono (C : Constants K) (sqrt : K → K)
    (coils ds es : List (List (Point K))) (h : K) (ps : List (Point K)) (n m j : ℕ)
    (hnm : n ≤ m)
    (hj : ((step_particles C sqrt coils ds es h)^[n] ps)[j]? =
      some (divergent_particle C)) :
    ((step_particles C sqrt coils ds es h)^[m] ps)[j]? =
      some (divergent_particle C) := by
  obtain ⟨k, rfl⟩ := Nat.exists_eq_add_of_le hnm
  rw [Nat.add_comm, Function.iterate_add_apply]
  exact iterate_sentinel C sqrt coils ds es h _ j hj k

lemma sim_loop_mem_spec (C : Constants K) (sqrt : K → K)
    (coils ds es : List (List (Point K))) (h : K) (wf : ℕ) :
    ∀ (n start : ℕ) (ps : List (Point K)) (s : ℕ) (q : List (Point K)),
      (s, q) ∈ sim_loop C sqrt coils ds es h wf start n ps →
      ∃ t, 1 ≤ t ∧ t ≤ n ∧ s = start + t - 1 ∧ s % wf = 0 ∧
        q = (step_particles C sqrt coils ds es h)^[t] ps := by
  intro n
  induction n with
  | zero => intro start ps s q hmem; simp [sim_loop] at hmem
  | succ n ih =>
    intro start ps s q hmem
    simp only [sim_loop, List.mem_append] at hmem
    rcases hmem with hl | hr
    · by_cases hwf : start % wf = 0
      · rw [if_pos hwf] at hl
        simp only [List.mem_singleton, Prod.mk.injEq] at hl
        obtain ⟨hs, hq⟩ := hl
        subst hs
        exact ⟨1, le_refl 1, by omega, by omega, hwf,
          by rw [Function.iterate_one]; exact hq⟩
      · rw [if_neg hwf] at hl
        simp at hl
    · obtain ⟨t, ht1, htn, hs, hmod, hq⟩ := ih (start + 1) _ s q hr
      refine ⟨t + 1, by omega, by omega, by omega, hmod, ?_⟩
      exact hq.trans (Function.iterate_succ_apply _ _ _).symm

lemma sim_loop_mem_exists (C : Constants K) (sqrt : K → K)
    (coils ds es : List (List (Point K))) (h : K) (wf : ℕ) :
    ∀ (n start : ℕ) (ps : List (Point K)) (s : ℕ),
      start ≤ s → s < start + n → s % wf = 0 →
      ∃ q, (s, q) ∈ sim_loop C sqrt coils ds es h wf start n ps := by
  intro n
  induction n with
  | zero => intro start ps s h1 h2 _; omega
  | succ n ih =>
    intro start ps s h1 h2 h3
    rcases eq_or_lt_of_le h1 with rfl | hlt
    · refine ⟨step_particles C sqrt coils ds es h ps, ?_⟩
      simp [sim_loop, h3]
    · obtain ⟨q, hq⟩ :=
        ih (start + 1) (step_particles C sqrt coils ds es h ps) s (by omega) (by omega) h3
      refine ⟨q, ?_⟩
      simp only [sim_loop, List.mem_append]
      exact Or.inr hq

lemma checkpoint_state (C : Constants K) (sqrt : K → K)
    (coils ds es : List (List (Point K))) (h : K) (total wf : ℕ)
    (ps : List (Point K)) :
    ∀ cp ∈ simulate_particles C sqrt coils ds es h total wf ps,
      cp.2 = (step_particles C sqrt coils ds es h)^[cp.1] ps := by
  intro cp hcp
  obtain ⟨s, q⟩ := cp
  rcases List.mem_cons.mp hcp with heq | hm
  · simp only [Prod.mk.injEq] at heq
    obtain ⟨hs, hq⟩ := heq
    subst hs
    subst hq
    rfl
  · obtain ⟨t, ht1, _, hs, _, hq⟩ := sim_loop_mem_spec C sqrt coils ds es h wf total 1 ps s q hm
    have hst : s = t := by omega
    subst hst
    exact hq

/-- Claim C5: every checkpoint of simulate_particles holds exactly the state
after its step index (so a particle slot is written to every checkpoint, each
of the original length), and the sentinel is absorbing under the step loop:
once a slot holds the divergent sentinel at some step, it holds it,
bit-identically, at every later step (the loop's divergence check skips it). -/
theorem divergence_is_terminal (C : Constants K) (sqrt : K → K)
    (coils ds es : List (List (Point K))) (h : K) (total wf : ℕ)
    (ps : List (Point K)) :
    (∀ cp ∈ simulate_particles C sqrt coils ds es h total wf ps,
       cp.2 = (step_particles C sqrt coils ds es h)^[cp.1] ps ∧
       cp.2.length = ps.length) ∧
    (∀ n m j : ℕ, n ≤ m →
       ((step_particles C sqrt coils ds es h)^[n] ps)[j]? =
         some (divergent_particle C) →
       ((step_particles C sqrt coils ds es h)^[m] ps)[j]? =
         some (divergent_particle C)) ∧
    (∀ cp cp' : ℕ × List (Point K),
      cp ∈ simulate_particles C sqrt coils ds es h total wf ps →
      cp' ∈ simulate_particles C sqrt coils ds es h total wf ps →
      cp.1 ≤ cp'.1 → ∀ j : ℕ, cp.2[j]? = some (divergent_particle C) →
      cp'.2[j]? = some (divergent_particle C)) := by
  refine ⟨?_, ?_, ?_⟩
  · intro cp hcp
    refine ⟨checkpoint_state C sqrt coils ds es h total wf ps cp hcp, ?_⟩
    rw [checkpoint_state C sqrt coils ds es h total wf ps cp hcp]
    exact iterate_length C sqrt coils ds es h ps cp.1
  · intro n m j hnm hj
    exact iterate_sentinel_mono C sqrt coils ds es h ps n m j hnm hj
  · intro cp cp' hcp hcp' hle j hj
    rw [checkpoint_state C sqrt coils ds es h total wf ps cp hcp] at hj
    rw [checkpoint_state C sqrt coils ds es h total wf ps cp' hcp']
    exact iterate_sentinel_mono C sqrt coils ds es h ps cp.1 cp'.1 j hle hj

/-- Claim C5 witness: the absorbing part of the theorem applied to a
one-particle sentinel state, iterated from step 0 to step 3. -/
theorem divergence_is_terminal_witness :
    ((step_particles constQ sqrt0 [] [] [] 1)^[3] [divergent_particle constQ])[0]? =
      some (divergent_particle constQ) :=
  (divergence_is_terminal constQ sqrt0 [] [] [] 1 0 1 [divergent_particle constQ]).2.1
    0 3 0 (by omega) rfl

/-- Claim C9: a seed particle whose initial position equals the sentinel is
treated as divergent from the very first step: every checkpoint of the run,
the step-0 one included, stores the sentinel unchanged in its slot. -/
theorem seed_equal_sentinel_frozen (C : Constants K) (sqrt : K → K)
    (coils ds es : List (List (Point K))) (h : K) (total wf : ℕ)
    (ps : List (Point K)) (j : ℕ)
    (hj : ps[j]? = some (divergent_particle C)) :
    ∀ cp ∈ simulate_particles C sqrt coils ds es h total wf ps,
      cp.2[j]? = some (divergent_particle C) := by
  intro cp hcp
  rw [checkpoint_state C sqrt coils ds es h total wf ps cp hcp]
  exact iterate_sentinel C sqrt coils ds es h ps j hj cp.1

/-- Claim C9 witness: a 2-step run with write frequency 1 on the single seed
particle equal to the sentinel; the checkpoint written at step 2 still holds
the sentinel in slot 0. -/
theorem seed_equal_sentinel_frozen_witness :
    (2, [divergent_particle constQ]) ∈
        simulate_particles constQ sqrt0 [] [] [] 1 2 1 [divergent_particle constQ] ∧
    ((2, [divergent_particle constQ]) : ℕ × List (Point ℚ)).2[0]? =
      some (divergent_particle constQ) := by
  have hmem : (2, [divergent_particle constQ]) ∈
      simulate_particles constQ sqrt0 [] [] [] 1 2 1 [divergent_particle constQ] := by
    simp [simulate_particles, sim_loop, step_particles]
  exact ⟨hmem,
    seed_equal_sentinel_frozen constQ sqrt0 [] [] [] 1 2 1 [divergent_particle constQ] 0
      rfl (2, [divergent_particle constQ]) hmem⟩

/-- Claim C10: under the precondition write_frequency ≥ 1, a checkpoint with
step index s exists exactly when s = 0 or s is a step index in 1..total_steps
divisible by write_frequency; in particular when write_frequency does not
divide total_steps no checkpoint carries the final step's positions. -/
theorem checkpoint_schedule (C : Constants K) (sqrt : K → K)
    (coils ds es : List (List (Point K))) (h : K) (total wf : ℕ) (hwf : 1 ≤ wf)
    (ps : List (Point K)) (s : ℕ) :
    ((∃ q, (s, q) ∈ simulate_particles C sqrt coils ds es h total wf ps) ↔
      (s = 0 ∨ (1 ≤ s ∧ s ≤ total ∧ s % wf = 0))) ∧
    (total % wf ≠ 0 →
      ∀ q, (total, q) ∉ simulate_particles C sqrt coils ds es h total wf ps) := by
  constructor
  · constructor
    · rintro ⟨q, hq⟩
      rcases List.mem_cons.mp hq with heq | hm
      · simp only [Prod.mk.injEq] at heq
        exact Or.inl heq.1
      · obtain ⟨t, ht1, htn, hs, hmod, _⟩ :=
          sim_loop_mem_spec C sqrt coils ds es h wf total 1 ps s q hm
        exact Or.inr ⟨by omega, by omega, hmod⟩
    · rintro (rfl | ⟨h1, h2, h3⟩)
      · exact ⟨ps, List.mem_cons_self _ _⟩
      · obtain ⟨q, hq⟩ :=
          sim_loop_mem_exists C sqrt coils ds es h wf total 1 ps s h1 (by omega) h3
        exact ⟨q, List.mem_cons_of_mem _ hq⟩
  · intro hnd q hq
    rcases List.mem_cons.mp hq with heq | hm
    · simp only [Prod.mk.injEq] at heq
      exact hnd (by rw [heq.1]; exact Nat.zero_mod wf)
    · obtain ⟨t, _, _, _, hmod, _⟩ :=
        sim_loop_mem_spec C sqrt coils ds es h wf total 1 ps total q hm
      exact hnd hmod

/-- Claim C10 witness: with write frequency 2 and 3 total steps a checkpoint
exists at step 2 (and the hypothesis write_frequency ≥ 1 holds). -/
theorem checkpoint_schedule_witness :
    1 ≤ 2 ∧
    (∃ q, (2, q) ∈
      simulate_particles constQ sqrt0 [] [] [] 1 3 2 [divergent_particle constQ]) :=
  ⟨by omega,
    (checkpoint_schedule constQ sqrt0 [] [] [] 1 3 2 (by omega)
        [divergent_particle constQ] 2).1.mpr (Or.inr ⟨by omega, by omega, by omega⟩)⟩

lemma chunk_join (c : ℕ) : ∀ (k : ℕ) (l : List α),
    (((List.range k).map fun r => (l.drop (r * c)).take c)).flatten = l.take (k * c) := by
  intro k
  induction k with
  | zero => intro l; simp
  | succ k ih =>
    intro l
    rw [List.range_succ, List.map_append, List.flatten_append, ih l]
    simp only [List.map_cons, List.map_nil, List.flatten_cons, List.flatten_nil,
      List.append_nil]
    rw [Nat.succ_mul, List.take_add]

/-- Claim C6 (amended): every rank r < W receives a partition of size exactly
floor(P / W); the concatenation of the W partitions is the prefix of the
original particle list of length W * floor(P / W) (so when W does not divide
P the last P mod W particles are dropped and the union is not the full set);
and each partition is written verbatim as the rank's step-0 checkpoint. -/
theorem partition_sizes_and_union (C : Constants K) (sqrt : K → K)
    (coils ds es : List (List (Point K))) (h : K) (total wf : ℕ)
    (l : List (Point K)) (W : ℕ) :
    (∀ r, r < W → (local_particles l W r).length = l.length / W) ∧
    ((List.range W).map fun r => local_particles l W r).flatten =
      l.take (W * (l.length / W)) ∧
    (∀ r, r < W →
      (0, local_particles l W r) ∈
        simulate_particles C sqrt coils ds es h total wf (local_particles l W r)) := by
  refine ⟨?_, ?_, ?_⟩
  · intro r hr
    simp only [local_particles, List.length_take, List.length_drop]
    have h1 : r * (l.length / W) + l.length / W ≤ W * (l.length / W) := by
      have := Nat.mul_le_mul_right (l.length / W) (show r + 1 ≤ W by omega)
      rwa [Nat.succ_mul] at this
    have h2 : W * (l.length / W) ≤ l.length := by
      rw [Nat.mul_comm]
      exact Nat.div_mul_le_self _ _
    have h3 : l.length / W + r * (l.length / W) ≤ l.length := by
      rw [Nat.add_comm]
      exact le_trans h1 h2
    exact Nat.min_eq_left (Nat.le_sub_of_add_le h3)
  · simp only [local_particles]
    exact chunk_join (l.length / W) W l
  · intro r _
    exact List.mem_cons_self _ _

/-- Claim C6 counterexample: with 3 particles and 2 workers the partitions
are the one-element blocks holding the first and second particle; their union
misses the third particle, so (in any order) it is not the original set. -/
theorem partition_union_counterexample :
    ¬ (((List.range 2).map fun r => local_particles partsW 2 r).flatten).Perm partsW := by
  intro hp
  have hfl : ((List.range 2).map fun r => local_particles partsW 2 r).flatten =
      [⟨1, 1, 1⟩, ⟨2, 2, 2⟩] := rfl
  rw [hfl] at hp
  have hl := hp.length_eq
  simp [partsW] at hl

/-- Claim C6 witness: the amended theorem applied at 3 particles and 2
workers, for rank 1. -/
theorem partition_sizes_and_union_witness :
    (local_particles partsW 2 1).length = partsW.length / 2 ∧
    (0, local_particles partsW 2 1) ∈
      simulate_particles constQ sqrt0 [] [] [] 1 1 1 (local_particles partsW 2 1) :=
  ⟨(partition_sizes_and_union constQ sqrt0 [] [] [] 1 1 1 partsW 2).1 1 (by omega),
    (partition_sizes_and_union constQ sqrt0 [] [] [] 1 1 1 partsW 2).2.2 1 (by omega)⟩

lemma read_all_eq_none_iff (files : List (CoilFile K)) :
    read_all files = none ↔ ∃ f ∈ files, f.content = none := by
  induction files with
  | nil => simp [read_all]
  | cons f rest ih =>
    cases hc : f.content with
    | none =>
      simp only [read_all, hc]
      exact iff_of_true trivial ⟨f, List.mem_cons_self _ _, hc⟩
    | some coil =>
      cases hr : read_all rest with
      | none =>
        simp only [read_all, hc, hr]
        refine iff_of_true trivial ?_
        obtain ⟨g, hg, hgc⟩ := ih.mp hr
        exact ⟨g, List.mem_cons_of_mem _ hg, hgc⟩
      | some coils =>
        simp only [read_all, hc, hr]
        constructor
        · intro habs; exact absurd habs (by simp)
        · rintro ⟨g, hg, hgc⟩
          rcases List.mem_cons.mp hg with rfl | hg2
          · rw [hc] at hgc; exact absurd hgc (by simp)
          · have : read_all rest = none := ih.mpr ⟨g, hg2, hgc⟩
            rw [this] at hr
            exact absurd hr (by simp)

lemma read_all_of_all_some (files : List (CoilFile K))
    (hall : ∀ f ∈ files, f.content ≠ none) :
    read_all files = some (files.map fun f => f.content.getD []) := by
  induction files with
  | nil => simp [read_all]
  | cons f rest ih =>
    have hf := hall f (List.mem_cons_self _ _)
    cases hc : f.content with
    | none => exact absurd hc hf
    | some coil =>
      have hrest := ih fun g hg => hall g (List.mem_cons_of_mem _ hg)
      simp only [read_all, hc, hrest, List.map_cons]
      simp [hc]

/-- Claim C7 (amended): read_coil_data_directory returns an error result
exactly when reading some coil file fails (before any stepping); it performs
no node-count validation (a coil with fewer than 2 nodes is accepted, see the
counterexample); on success it returns the file contents in lexicographic
file-name order (the listing is sorted by name, a permutation of the
directory, and read in that order). -/
theorem read_coil_directory_behaviour (files : List (CoilFile K)) :
    (read_coil_data_directory files = none ↔ ∃ f ∈ files, f.content = none) ∧
    ((∀ f ∈ files, f.content ≠ none) →
      read_coil_data_directory files =
        some ((sort_files files).map fun f => f.content.getD [])) ∧
    List.Sorted file_le (sort_files files) ∧
    (sort_files files).Perm files := by
  have hperm : (sort_files files).Perm files := List.perm_insertionSort file_le files
  refine ⟨?_, ?_, ?_, hperm⟩
  · rw [read_coil_data_directory, read_all_eq_none_iff]
    constructor
    · rintro ⟨f, hf, hc⟩
      exact ⟨f, hperm.subset hf, hc⟩
    · rintro ⟨f, hf, hc⟩
      exact ⟨f, hperm.symm.subset hf, hc⟩
  · intro hall
    exact read_all_of_all_some _ fun f hf => hall f (hperm.subset hf)
  · exact List.sorted_insertionSort file_le files

/-- Claim C7 counterexample: a directory whose single coil file reads
successfully but holds only one node; read_coil_data_directory returns that
1-node coil wrapped in a success value instead of failing. -/
theorem read_coil_single_node_accepted :
    read_coil_data_directory [CoilFile.mk "a" (some [(⟨0, 0, 0⟩ : Point ℚ)])] =
      some [[⟨0, 0, 0⟩]] := rfl

/-- Claim C7 witness: a two-file directory whose second file (first in name
order) is unreadable makes read_coil_data_directory return the error result. -/
theorem read_coil_directory_behaviour_witness :
    read_coil_data_directory
        [CoilFile.mk "b" (some [(⟨0, 0, 0⟩ : Point ℚ), ⟨1, 1, 1⟩]), CoilFile.mk "a" none] =
      none :=
  (read_coil_directory_behaviour _).1.mpr
    ⟨CoilFile.mk "a" none, List.mem_cons_of_mem _ (List.mem_cons_self _ _), rfl⟩

end Solctra
